import Mathlib

/-!
Verification development for the repository
`Technical-Debt-Prediction-and-changepoint-detection`.

The file shallowly embeds `codes/bayesian_prediction_orbit_DLT.py`:
the hyperparameter grid search `hypertune_dlt_model`, the train/test
pipeline `trigger_prediction` (data cleaning, 80/20 split, metric
computation and CSV output), and the per-project driver loop
`bayesian_orbit`.  Calls into the third-party `orbit` library (model
fitting and prediction) and the filesystem are modelled as parameters
of the embedding; everything the repository itself computes is
translated directly from the source.
-/

namespace OrbitDLT

/-- Outcome of `mean_absolute_error` for one hyperparameter combination,
as a Python float: a NaN, a (positive) infinity, or a finite value
modelled as a rational.  In the source the comparison `mae < best_mae`
is false whenever `mae` is NaN or infinite (since `best_mae` starts at
`float('inf')`), so those two cases never become the best. -/
inductive MAEVal : Type
  | nan : MAEVal
  | inf : MAEVal
  | val : ℚ → MAEVal
deriving DecidableEq

/-- One hyperparameter combination of the grid in `hypertune_dlt_model`
(lines 18-20 of `bayesian_prediction_orbit_DLT.py`). -/
structure Config where
  trend : String
  estimator : String
  penalty : Option ℚ
deriving DecidableEq

/-- Source line 18: `trend_options = ['linear', 'loglinear', 'flat', 'logistic']`. -/
def trend_options : List String := ["linear", "loglinear", "flat", "logistic"]

/-- Source line 19: `estimators = ['stan-map', 'stan-mcmc']`. -/
def estimators : List String := ["stan-map", "stan-mcmc"]

/-- Source line 20: `penalties = [None, 0.01, 0.1, 1.0]` (the decimal
literals written as exact rationals). -/
def penalties : List (Option ℚ) := [none, some (1/100), some (1/10), some 1]

/-- The grid in its iteration order: trend outermost, then estimator,
then penalty (the nesting of the three `for` loops, lines 27-29). -/
def gridCombos : List Config :=
  trend_options.flatMap fun t =>
    estimators.flatMap fun e =>
      penalties.map fun p => ⟨t, e, p⟩

/-- One iteration of the selection in the loop body (lines 56-64):
given the computed `mae` for combination `c` and the current best,
update the best exactly when `mae < best_mae` holds as a float
comparison.  `best = none` is the initial state `best_mae = inf`,
`best_model = best_config = None`; a NaN or infinite `mae` never
passes the test. -/
def step (m : MAEVal) (best : Option (ℚ × Config)) (c : Config) : Option (ℚ × Config) :=
  match m, best with
  | MAEVal.val q, none => some (q, c)
  | MAEVal.val q, some (bq, bc) => if q < bq then some (q, c) else some (bq, bc)
  | _, b => b

/-- The nested loops of `hypertune_dlt_model`, flattened over the list
of combinations still to visit.  `f` stands for the externally computed
test MAE of the `orbit` model fitted with a given combination (lines
33-52); the repository treats it as an opaque library call. -/
def hyperGo (f : Config → MAEVal) : List Config → Option (ℚ × Config) → Option (ℚ × Config)
  | [], best => best
  | c :: rest, best => hyperGo f rest (step (f c) best c)

/-- `hypertune_dlt_model` (lines 16-69): run the grid and return the
best (mae, configuration) pair, or `none` when no combination ever
passed `mae < best_mae`.  The fitted model object returned by the
source is determined by the best configuration, so the embedding
returns the configuration (together with its MAE). -/
def hypertune_dlt_model (f : Config → MAEVal) : Option (ℚ × Config) :=
  hyperGo f gridCombos none

/-- Instrumented variant of `hyperGo` that also records, in order,
every combination whose model is constructed, fitted and evaluated
(the whole loop body runs unconditionally for each combination). -/
def hyperGoT (f : Config → MAEVal) :
    List Config → Option (ℚ × Config) → List Config × Option (ℚ × Config)
  | [], best => ([], best)
  | c :: rest, best =>
      let r := hyperGoT f rest (step (f c) best c)
      (c :: r.1, r.2)

/-- `hypertune_dlt_model` together with the trace of evaluated
combinations. -/
def hypertuneTrace (f : Config → MAEVal) : List Config × Option (ℚ × Config) :=
  hyperGoT f gridCombos none

lemma hyperGoT_fst (f : Config → MAEVal) :
    ∀ (l : List Config) (b : Option (ℚ × Config)), (hyperGoT f l b).1 = l := by
  intro l
  induction l with
  | nil => intro b; rfl
  | cons c rest ih => intro b; simp [hyperGoT, ih]

lemma hyperGoT_snd (f : Config → MAEVal) :
    ∀ (l : List Config) (b : Option (ℚ × Config)), (hyperGoT f l b).2 = hyperGo f l b := by
  intro l
  induction l with
  | nil => intro b; rfl
  | cons c rest ih => intro b; simp [hyperGoT, hyperGo, ih]

/-- When the accumulator already holds a best pair, one step keeps a
best pair whose MAE is no larger. -/
lemma step_mono (m : MAEVal) (bq : ℚ) (bc : Config) (c : Config) :
    ∃ p, step m (some (bq, bc)) c = some p ∧ p.1 ≤ bq := by
  cases m with
  | nan => exact ⟨(bq, bc), rfl, le_refl _⟩
  | inf => exact ⟨(bq, bc), rfl, le_refl _⟩
  | val q =>
      by_cases h : q < bq
      · exact ⟨(q, c), by simp [step, h], le_of_lt h⟩
      · exact ⟨(bq, bc), by simp [step, h], le_refl _⟩

/-- After a step on a combination with a finite MAE `q`, the best pair
exists and its MAE is at most `q`. -/
lemma step_val_le (q : ℚ) (b : Option (ℚ × Config)) (c : Config) :
    ∃ p, step (MAEVal.val q) b c = some p ∧ p.1 ≤ q := by
  cases b with
  | none => exact ⟨(q, c), rfl, le_refl _⟩
  | some p =>
      obtain ⟨bq, bc⟩ := p
      by_cases h : q < bq
      · exact ⟨(q, c), by simp [step, h], le_refl _⟩
      · exact ⟨(bq, bc), by simp [step, h], le_of_not_lt h⟩

/-- Characterisation of a run of the selection loop that ends with a
best pair `(q, c)`: either the pair was already the accumulator and no
visited combination beats it, or `c` sits somewhere in the visited
list, strictly beats the incoming accumulator and every combination
before it, and is not beaten by any combination after it. -/
lemma hyperGo_eq_some (f : Config → MAEVal) :
    ∀ (l : List Config) (b : Option (ℚ × Config)) (q : ℚ) (c : Config),
      hyperGo f l b = some (q, c) →
      (b = some (q, c) ∧ ∀ c' ∈ l, ∀ q', f c' = MAEVal.val q' → q ≤ q') ∨
      (∃ l1 l2, l = l1 ++ c :: l2 ∧ f c = MAEVal.val q ∧
        (∀ bq bc, b = some (bq, bc) → q < bq) ∧
        (∀ c' ∈ l1, ∀ q', f c' = MAEVal.val q' → q < q') ∧
        (∀ c' ∈ l2, ∀ q', f c' = MAEVal.val q' → q ≤ q')) := by
  intro l
  induction l with
  | nil =>
      intro b q c h
      left
      refine ⟨h, ?_⟩
      intro c' hc'
      simp at hc'
  | cons c0 rest ih =>
      intro b q c h
      rcases ih (step (f c0) b c0) q c h with ⟨hb, hrest⟩ | ⟨l1, l2, hsplit, hfc, hblt, hl1, hl2⟩
      · -- the final best was already the accumulator after the step on c0
        cases hm : f c0 with
        | nan =>
            rw [hm] at hb
            left
            refine ⟨hb, ?_⟩
            intro c' hc' q' hq'
            rcases List.mem_cons.mp hc' with rfl | hmem
            · rw [hm] at hq'; cases hq'
            · exact hrest c' hmem q' hq'
        | inf =>
            rw [hm] at hb
            left
            refine ⟨hb, ?_⟩
            intro c' hc' q' hq'
            rcases List.mem_cons.mp hc' with rfl | hmem
            · rw [hm] at hq'; cases hq'
            · exact hrest c' hmem q' hq'
        | val q0 =>
            rw [hm] at hb
            cases hbv : b with
            | none =>
                rw [hbv] at hb
                simp only [step, Option.some.injEq, Prod.mk.injEq] at hb
                obtain ⟨rfl, rfl⟩ := hb
                right
                refine ⟨[], rest, rfl, hm, ?_, ?_, hrest⟩
                · intro bq bc hbb; cases hbb
                · intro c' hc'; simp at hc'
            | some p =>
                obtain ⟨bq, bc⟩ := p
                rw [hbv] at hb
                by_cases hlt : q0 < bq
                · simp only [step, hlt, if_true, Option.some.injEq, Prod.mk.injEq] at hb
                  obtain ⟨rfl, rfl⟩ := hb
                  right
                  refine ⟨[], rest, rfl, hm, ?_, ?_, hrest⟩
                  · intro bq' bc' hbb
                    injection hbb with hpair
                    injection hpair with h1 h2
                    rw [← h1]
                    exact hlt
                  · intro c' hc'; simp at hc'
                · simp only [step, hlt, if_false, Option.some.injEq, Prod.mk.injEq] at hb
                  obtain ⟨rfl, rfl⟩ := hb
                  left
                  constructor
                  · rfl
                  · intro c' hc' q' hq'
                    rcases List.mem_cons.mp hc' with rfl | hmem
                    · rw [hm] at hq'
                      injection hq' with h1
                      rw [← h1]
                      exact le_of_not_lt hlt
                    · exact hrest c' hmem q' hq'
      · -- the final best came from inside rest
        right
        refine ⟨c0 :: l1, l2, by rw [hsplit]; rfl, hfc, ?_, ?_, hl2⟩
        · intro bq bc hbb
          obtain ⟨p, hp, hple⟩ := step_mono (f c0) bq bc c0
          rw [hbb] at hblt
          obtain ⟨pq, pc⟩ := p
          have := hblt pq pc (by rw [← hbb] at hp; rw [hbb] at hp; exact hp)
          exact lt_of_lt_of_le this hple
        · intro c' hc' q' hq'
          rcases List.mem_cons.mp hc' with rfl | hmem
          · obtain ⟨p, hp, hple⟩ := step_val_le q' b c'
            rw [hq'] at hblt
            obtain ⟨pq, pc⟩ := p
            have := hblt pq pc hp
            exact lt_of_lt_of_le this hple
          · exact hl1 c' hmem q' hq'

/-- C1: when `hypertune_dlt_model` returns a best pair `(q, c)`, the
configuration `c` belongs to the grid, its test MAE is the finite value
`q`, `q` is less than or equal to the MAE of every other grid
combination that has a (finite, non-NaN) MAE, and `c` is the first such
minimiser in iteration order (trend, then estimator, then penalty):
every combination strictly earlier in the grid has a strictly larger
finite MAE or no comparable MAE at all. -/
theorem hypertune_returns_min (f : Config → MAEVal) (q : ℚ) (c : Config)
    (h : hypertune_dlt_model f = some (q, c)) :
    c ∈ gridCombos ∧ f c = MAEVal.val q ∧
    (∀ c' ∈ gridCombos, ∀ q', f c' = MAEVal.val q' → q ≤ q') ∧
    ∃ l1 l2, gridCombos = l1 ++ c :: l2 ∧
      ∀ c' ∈ l1, ∀ q', f c' = MAEVal.val q' → q < q' := by
  rcases hyperGo_eq_some f gridCombos none q c h with ⟨hb, _⟩ | ⟨l1, l2, hsplit, hfc, _, hl1, hl2⟩
  · cases hb
  · have hmem : c ∈ gridCombos := by
      rw [hsplit]
      exact List.mem_append_right _ (List.mem_cons_self _ _)
    refine ⟨hmem, hfc, ?_, l1, l2, hsplit, hl1⟩
    intro c' hc' q' hq'
    rw [hsplit] at hc'
    rcases List.mem_append.mp hc' with hmem1 | hmem2
    · exact le_of_lt (hl1 c' hmem1 q' hq')
    · rcases List.mem_cons.mp hmem2 with rfl | hmem3
      · rw [hfc] at hq'
        injection hq' with h1
        rw [h1]
      · exact hl2 c' hmem3 q' hq'

/-- Constant evaluation function used to instantiate theorems about
the grid search at a concrete input. -/
def constMAE : Config → MAEVal := fun _ => MAEVal.val 7

/-- Concrete witness for `hypertune_returns_min`: with every
combination scoring MAE 7, the search returns the first grid
combination with value 7, and it is a member of the grid with that
MAE. -/
theorem hypertune_returns_min_witness :
    (⟨"linear", "stan-map", none⟩ : Config) ∈ gridCombos ∧
    constMAE ⟨"linear", "stan-map", none⟩ = MAEVal.val 7 :=
  ⟨(hypertune_returns_min constMAE 7 ⟨"linear", "stan-map", none⟩ (by decide)).1,
   (hypertune_returns_min constMAE 7 ⟨"linear", "stan-map", none⟩ (by decide)).2.1⟩

lemma penalties_nodup : penalties.Nodup := by
  simp [penalties]

lemma mem_inner_estimator (t e : String) (c : Config)
    (h : c ∈ penalties.map fun p => Config.mk t e p) : c.estimator = e := by
  rcases List.mem_map.1 h with ⟨p, _, rfl⟩
  rfl

lemma mem_middle_trend (t : String) (c : Config)
    (h : c ∈ estimators.flatMap fun e => penalties.map fun p => Config.mk t e p) :
    c.trend = t := by
  rcases List.mem_flatMap.1 h with ⟨e, _, hc⟩
  rcases List.mem_map.1 hc with ⟨p, _, rfl⟩
  rfl

lemma gridCombos_nodup : gridCombos.Nodup := by
  unfold gridCombos
  refine List.nodup_flatMap.2 ⟨?_, ?_⟩
  · intro t _
    refine List.nodup_flatMap.2 ⟨?_, ?_⟩
    · intro e _
      refine penalties_nodup.map ?_
      intro p p' h
      injection h with h1 h2 h3
    · have hp : estimators.Pairwise (fun a b => a ≠ b) := by decide
      refine hp.imp ?_
      intro e e' hne c hc hc'
      exact hne (by rw [← mem_inner_estimator t e c hc, ← mem_inner_estimator t e' c hc'])
  · have hp : trend_options.Pairwise (fun a b => a ≠ b) := by decide
    refine hp.imp ?_
    intro t t' hne c hc hc'
    exact hne (by rw [← mem_middle_trend t c hc, ← mem_middle_trend t' c hc'])

/-- C2: the grid search is exhaustive brute force.  For every MAE
evaluation function `f` the trace of combinations whose model is
built, fitted and evaluated is the whole grid in order — independent
of any intermediate result — the grid has exactly
4 x 2 x 4 = 32 pairwise distinct combinations, and the traced run
computes the same best as `hypertune_dlt_model`. -/
theorem hypertune_exhaustive (f : Config → MAEVal) :
    (hypertuneTrace f).1 = gridCombos ∧
    gridCombos.length = 32 ∧
    gridCombos.Nodup ∧
    (hypertuneTrace f).2 = hypertune_dlt_model f := by
  refine ⟨hyperGoT_fst f gridCombos none, by decide, gridCombos_nodup,
    hyperGoT_snd f gridCombos none⟩

/-- Concrete witness for `hypertune_exhaustive` at the constant
evaluation function. -/
theorem hypertune_exhaustive_witness :
    (hypertuneTrace constMAE).1 = gridCombos ∧ gridCombos.length = 32 :=
  ⟨(hypertune_exhaustive constMAE).1, (hypertune_exhaustive constMAE).2.1⟩

/-- Python's built-in `round`: round to the nearest integer, with exact
halves rounded to the even neighbour (banker's rounding).  Away from
exact halves it agrees with Mathlib's `round`. -/
def roundHE {α : Type} [LinearOrderedField α] [FloorRing α] [DecidableEq α] (x : α) : ℤ :=
  if Int.fract x = 1/2 then (if ⌊x⌋ % 2 = 0 then ⌊x⌋ else ⌊x⌋ + 1) else round x

/-- Source line 82: `split_point = round(len(df) * 0.8)`.  The float
literal `0.8` is modelled by the exact rational `4/5`; the exact
product `4n/5` has fractional part in {0, 1/5, 2/5, 3/5, 4/5}, more
than the float rounding error away from every half-integer tie, so the
rational model returns the same integer as the float computation. -/
def split_point (n : ℕ) : ℕ := (roundHE ((n : ℚ) * (4/5))).toNat

/-- Source line 83: `training_df = df.iloc[:split_point, :]`. -/
def training_df {α : Type} (df : List α) : List α := df.take (split_point df.length)

/-- Source line 84: `testing_df = df.iloc[split_point:, :]`. -/
def testing_df {α : Type} (df : List α) : List α := df.drop (split_point df.length)

/-- The fractional part of `4n/5` is never an exact half, so the
banker's tie rule of `round` never fires for the split point. -/
lemma fract_ne_half (n : ℕ) : Int.fract ((n : ℚ) * (4/5)) ≠ 1/2 := by
  intro hf
  have hfl : ((n : ℚ) * (4/5)) - ⌊((n : ℚ) * (4/5))⌋ = 1/2 := by
    rw [Int.self_sub_floor]
    exact hf
  set f := ⌊((n : ℚ) * (4/5))⌋ with hf2
  have h8 : ((8 * n : ℤ) : ℚ) = ((10 * f + 5 : ℤ) : ℚ) := by push_cast; linarith
  have h8i : (8 * (n : ℤ)) = 10 * f + 5 := by exact_mod_cast h8
  omega

/-- Closed integer form of the split point: `round(n * 0.8)` equals
`(8n + 5) / 10` in natural division. -/
lemma split_point_eq (n : ℕ) : split_point n = (8 * n + 5) / 10 := by
  unfold split_point roundHE
  rw [if_neg (fract_ne_half n), round_eq]
  have h1 : (n : ℚ) * (4/5) + 1/2 = ((8 * n + 5 : ℕ) : ℚ) / ((10 : ℕ) : ℚ) := by
    push_cast
    ring
  rw [h1, Rat.floor_natCast_div_natCast]
  omega

lemma split_point_le (n : ℕ) : split_point n ≤ n := by
  rw [split_point_eq]
  omega

/-- C3: the train/test split of `trigger_prediction` (lines 81-84) is an
exact partition of the cleaned data frame.  Training is the first
`round(len(df) * 0.8)` rows, testing the rest: concatenating them in
order gives back the frame (so the two parts are disjoint index ranges
preserving row order), the training length is exactly the split point,
and the two lengths sum to `len(df)`. -/
theorem split_partition {α : Type} (df : List α) :
    training_df df ++ testing_df df = df ∧
    (training_df df).length = split_point df.length ∧
    (testing_df df).length = df.length - split_point df.length ∧
    (training_df df).length + (testing_df df).length = df.length := by
  refine ⟨List.take_append_drop _ df, ?_, List.length_drop _ _, ?_⟩
  · rw [training_df, List.length_take]
    exact min_eq_left (split_point_le df.length)
  · rw [training_df, testing_df, List.length_take, List.length_drop]
    have h := split_point_le df.length
    omega

/-- Concrete witness for `split_partition`: a ten-row frame splits into
its first eight rows and last two rows. -/
theorem split_partition_witness :
    training_df [0, 1, 2, 3, 4, 5, 6, 7, 8, 9] ++
      testing_df [0, 1, 2, 3, 4, 5, 6, 7, 8, 9] = [0, 1, 2, 3, 4, 5, 6, 7, 8, 9] :=
  (split_partition [0, 1, 2, 3, 4, 5, 6, 7, 8, 9]).1

/-- Raw content of the `SQALE_INDEX` column of one CSV row before
`pd.to_numeric`: a numeric value, a non-numeric string, or a missing
entry. -/
inductive Cell : Type
  | num : ℚ → Cell
  | text : Cell
  | missing : Cell
deriving DecidableEq

/-- Source line 78: `pd.to_numeric(..., errors='coerce')` maps a
non-numeric or missing cell to NaN (modelled as `none`). -/
def to_numeric_coerce : Cell → Option ℚ
  | Cell.num q => some q
  | Cell.text => none
  | Cell.missing => none

/-- One row of the input CSV after date parsing: `COMMIT_DATE` is the
parsed timestamp or NaT (`none`), `SQALE_INDEX` is the raw cell, and
the remaining (regressor) columns are numeric values or NaN. -/
structure RawRow where
  commitDate : Option ℤ
  sqaleIndex : Cell
  regressors : List (Option ℚ)
deriving DecidableEq

/-- One fully valid row after `dropna` (line 79): every field present. -/
structure CleanRow where
  commitDate : ℤ
  sqale : ℚ
  regressors : List ℚ
deriving DecidableEq

/-- All-or-nothing sequencing of the regressor cells: `none` exactly
when some cell is NaN. -/
def seqOpt : List (Option ℚ) → Option (List ℚ)
  | [] => some []
  | none :: _ => none
  | some q :: rest => (seqOpt rest).map fun l => q :: l

/-- The fate of one row under lines 77-79: keep it (with all fields
parsed) exactly when the date parsed, the SQALE index coerced to a
number, and no regressor is NaN; otherwise `dropna` removes it. -/
def cleanRow (r : RawRow) : Option CleanRow :=
  match r.commitDate, to_numeric_coerce r.sqaleIndex, seqOpt r.regressors with
  | some d, some s, some regs => some ⟨d, s, regs⟩
  | _, _, _ => none

/-- Lines 77-79 applied to the whole frame: date conversion, numeric
coercion of `SQALE_INDEX` and `dropna`. -/
def cleanRows (rows : List RawRow) : List CleanRow := rows.filterMap cleanRow

/-- Source line 87: `y_train = training_df['SQALE_INDEX'].values`. -/
def y_train_of (rows : List RawRow) : List ℚ :=
  (training_df (cleanRows rows)).map CleanRow.sqale

/-- Source line 89: `y_test = testing_df['SQALE_INDEX'].values`. -/
def y_test_of (rows : List RawRow) : List ℚ :=
  (testing_df (cleanRows rows)).map CleanRow.sqale

lemma cleanRow_eq_some {raw : RawRow} {r : CleanRow} (h : cleanRow raw = some r) :
    raw.commitDate = some r.commitDate ∧
    to_numeric_coerce raw.sqaleIndex = some r.sqale ∧
    seqOpt raw.regressors = some r.regressors := by
  unfold cleanRow at h
  cases hd : raw.commitDate with
  | none => rw [hd] at h; cases h
  | some d =>
      cases hs : to_numeric_coerce raw.sqaleIndex with
      | none => rw [hd, hs] at h; cases h
      | some s =>
          cases hr : seqOpt raw.regressors with
          | none => rw [hd, hs, hr] at h; cases h
          | some regs =>
              rw [hd, hs, hr] at h
              injection h with h1
              rw [← h1]
              exact ⟨rfl, rfl, rfl⟩

lemma seqOpt_eq_none {l : List (Option ℚ)} (h : none ∈ l) : seqOpt l = none := by
  induction l with
  | nil => cases h
  | cons x rest ih =>
      cases x with
      | none => rfl
      | some q =>
          rcases List.mem_cons.mp h with h1 | h2
          · cases h1
          · simp [seqOpt, ih h2]

/-- C8: after date conversion, numeric coercion and `dropna`, every row
reaching the training or testing split comes from an input row whose
`COMMIT_DATE` parsed and whose `SQALE_INDEX` coerced to an actual
number (so `y_train` and `y_test` hold only real numeric values, never
NaN); and a row with an unparsed date, a non-numeric `SQALE_INDEX` or
any missing field is dropped and reaches neither split. -/
theorem dropna_invariant (rows : List RawRow) :
    (∀ r : CleanRow,
        r ∈ training_df (cleanRows rows) ∨ r ∈ testing_df (cleanRows rows) →
        ∃ raw ∈ rows, cleanRow raw = some r ∧
          raw.commitDate = some r.commitDate ∧
          to_numeric_coerce raw.sqaleIndex = some r.sqale) ∧
    (∀ raw : RawRow,
        raw.commitDate = none ∨ to_numeric_coerce raw.sqaleIndex = none ∨
          none ∈ raw.regressors →
        cleanRow raw = none) ∧
    (∀ q : ℚ, q ∈ y_train_of rows ∨ q ∈ y_test_of rows →
        ∃ raw ∈ rows, to_numeric_coerce raw.sqaleIndex = some q) := by
  have hmem : ∀ r : CleanRow,
      r ∈ training_df (cleanRows rows) ∨ r ∈ testing_df (cleanRows rows) →
      ∃ raw ∈ rows, cleanRow raw = some r ∧
        raw.commitDate = some r.commitDate ∧
        to_numeric_coerce raw.sqaleIndex = some r.sqale := by
    intro r hr
    have hr2 : r ∈ cleanRows rows := by
      have : r ∈ training_df (cleanRows rows) ++ testing_df (cleanRows rows) :=
        List.mem_append.mpr hr
      rw [training_df, testing_df, List.take_append_drop] at this
      exact this
    rcases List.mem_filterMap.mp hr2 with ⟨raw, hraw, hclean⟩
    obtain ⟨h1, h2, _⟩ := cleanRow_eq_some hclean
    exact ⟨raw, hraw, hclean, h1, h2⟩
  refine ⟨hmem, ?_, ?_⟩
  · intro raw h
    unfold cleanRow
    rcases h with h1 | h2 | h3
    · rw [h1]
    · rw [h2]
      cases raw.commitDate <;> rfl
    · rw [seqOpt_eq_none h3]
      cases raw.commitDate with
      | none => rfl
      | some d => cases to_numeric_coerce raw.sqaleIndex <;> rfl
  · intro q hq
    have : ∃ r : CleanRow,
        (r ∈ training_df (cleanRows rows) ∨ r ∈ testing_df (cleanRows rows)) ∧
        r.sqale = q := by
      rcases hq with hq1 | hq2
      · rcases List.mem_map.1 hq1 with ⟨r, hr, hs⟩
        exact ⟨r, Or.inl hr, hs⟩
      · rcases List.mem_map.1 hq2 with ⟨r, hr, hs⟩
        exact ⟨r, Or.inr hr, hs⟩
    rcases this with ⟨r, hr, hs⟩
    rcases hmem r hr with ⟨raw, hraw, _, _, hcoerce⟩
    exact ⟨raw, hraw, by rw [hs] at hcoerce; exact hcoerce⟩

/-- Concrete witness for `dropna_invariant`: a row whose `SQALE_INDEX`
cell is a non-numeric string is removed by the cleaning pipeline. -/
theorem dropna_invariant_witness :
    cleanRow ⟨some 3, Cell.text, [some 2]⟩ = none :=
  (dropna_invariant []).2.1 ⟨some 3, Cell.text, [some 2]⟩ (Or.inr (Or.inl rfl))

/-- Modelled from the spec: the repository imports `MAE` from a
`modules` file absent from the sources; the spec names it as the
mean-absolute-error accuracy metric.  Mean of the absolute errors over
the predicted/actual pairs. -/
def MAE (predicted actual : List ℚ) : ℚ :=
  (((predicted.zip actual).map fun pa => |pa.1 - pa.2|).sum) /
    ((predicted.zip actual).length : ℚ)

/-- Modelled from the spec: `MAPE` from the absent `modules` file, the
mean-absolute-percentage-error metric: mean of `|actual - predicted| /
|actual|` over the pairs, as a percentage. -/
def MAPE (predicted actual : List ℚ) : ℚ :=
  100 * (((predicted.zip actual).map fun pa => |(pa.2 - pa.1) / pa.2|).sum) /
    ((predicted.zip actual).length : ℚ)

/-- Modelled from the spec: `MSE` from the absent `modules` file, the
mean-squared-error metric. -/
def MSE (predicted actual : List ℚ) : ℚ :=
  (((predicted.zip actual).map fun pa => (pa.1 - pa.2)^2).sum) /
    ((predicted.zip actual).length : ℚ)

/-- Modelled from the spec: `RMSE` from the absent `modules` file, the
root-mean-squared-error metric, the square root of `MSE`. -/
noncomputable def RMSE (predicted actual : List ℚ) : ℝ :=
  Real.sqrt ((MSE predicted actual : ℚ) : ℝ)

/-- Python's `round(x, 2)`: banker's rounding to two decimal places. -/
def round2 (q : ℚ) : ℚ := (roundHE (q * 100) : ℚ) / 100

/-- Rounding to two decimal places of a real metric value (the result
is an exact multiple of 1/100, hence rational). -/
noncomputable def round2R (x : ℝ) : ℚ := (roundHE (x * 100) : ℚ) / 100

/-- The `result_data` dictionary written by `trigger_prediction`
(lines 109-131): project, model name, best configuration, and the four
metrics of the final predictions against the test data, each rounded
to two decimals. -/
structure ResultRow where
  Project : String
  Model : String
  Trend : String
  Estimator : String
  Penalty : Option ℚ
  MAE : ℚ
  MAPE : ℚ
  RMSE : ℚ
  MSE : ℚ
deriving DecidableEq

/-- Construction of `result_data` (lines 109-131) from the best
configuration and the final predictions. -/
noncomputable def mkResultRow (project : String) (cfg : Config)
    (predicted actual : List ℚ) : ResultRow :=
  ⟨project, "DLT", cfg.trend, cfg.estimator, cfg.penalty,
    round2 (MAE predicted actual), round2 (MAPE predicted actual),
    round2R (RMSE predicted actual), round2 (MSE predicted actual)⟩

/-- Column order of the dictionary keys, the header `to_csv` writes. -/
def csvHeader : List String :=
  ["Project", "Model", "Trend", "Estimator", "Penalty", "MAE", "MAPE", "RMSE", "MSE"]

/-- Content of the assessment CSV: its header line and its data rows. -/
structure CsvFile where
  header : List String
  rows : List ResultRow
deriving DecidableEq

/-- State of the assessment CSV path: `none` when the file does not
exist yet. -/
abbrev FileState := Option CsvFile

/-- Lines 139-143: write `results_df` to the assessment CSV — full
write with header when the file does not exist, append of one data row
without header otherwise. -/
def writeResult (fs : FileState) (row : ResultRow) : FileState :=
  match fs with
  | none => some ⟨csvHeader, [row]⟩
  | some f => some ⟨f.header, f.rows ++ [row]⟩

/-- Data rows currently stored at the assessment CSV path. -/
def csvRows : FileState → List ResultRow
  | none => []
  | some f => f.rows

/-- Outcomes of the external operations `trigger_prediction` performs:
reading the input CSV, fitting/evaluating one grid combination inside
the hyperparameter search, and the final `best_model.predict`.  Each
can raise an exception of an abstract type `ε`. -/
structure Env (ε : Type) where
  readCsv : Except ε (List RawRow)
  fitPredictMAE : Config → Except ε MAEVal
  finalPredict : Config → Except ε (List ℚ)

/-- Exceptions observable from `trigger_prediction`: an exception `e`
of a library call propagated unchanged, or the `AttributeError` raised
by `best_model.predict` when `best_model` is `None` (line 103). -/
inductive PyErr (ε : Type) : Type
  | ext : ε → PyErr ε
  | noneType : PyErr ε

/-- The grid-search loop when fitting may raise: an exception aborts
the remaining combinations and propagates. -/
def hyperGoE {ε : Type} (g : Config → Except ε MAEVal) :
    List Config → Option (ℚ × Config) → Except ε (Option (ℚ × Config))
  | [], best => Except.ok best
  | c :: rest, best =>
      match g c with
      | Except.error e => Except.error e
      | Except.ok m => hyperGoE g rest (step m best c)

/-- `hypertune_dlt_model` over fallible fitting. -/
def hypertuneE {ε : Type} (g : Config → Except ε MAEVal) :
    Except ε (Option (ℚ × Config)) :=
  hyperGoE g gridCombos none

lemma hyperGoE_pure {ε : Type} (f : Config → MAEVal) :
    ∀ (l : List Config) (b : Option (ℚ × Config)),
      hyperGoE (ε := ε) (fun c => Except.ok (f c)) l b = Except.ok (hyperGo f l b) := by
  intro l
  induction l with
  | nil => intro b; rfl
  | cons c rest ih => intro b; exact ih (step (f c) b c)

lemma hypertuneE_pure {ε : Type} (f : Config → MAEVal) :
    hypertuneE (ε := ε) (fun c => Except.ok (f c)) = Except.ok (hypertune_dlt_model f) :=
  hyperGoE_pure f gridCombos none

/-- `trigger_prediction` (lines 73-146): read and clean the input CSV,
split it, run the grid search, predict with the best model, build the
result row and write it to the assessment CSV.  The returned pair is
the outcome (result row or propagated exception) together with the
resulting state of the assessment CSV path. -/
noncomputable def trigger_prediction {ε : Type} (env : Env ε) (project : String)
    (fs : FileState) : Except (PyErr ε) ResultRow × FileState :=
  match env.readCsv with
  | Except.error e => (Except.error (PyErr.ext e), fs)
  | Except.ok raw =>
      match hypertuneE env.fitPredictMAE with
      | Except.error e => (Except.error (PyErr.ext e), fs)
      | Except.ok none => (Except.error PyErr.noneType, fs)
      | Except.ok (some (_, cfg)) =>
          match env.finalPredict cfg with
          | Except.error e => (Except.error (PyErr.ext e), fs)
          | Except.ok predicted =>
              let row := mkResultRow project cfg predicted (y_test_of raw)
              (Except.ok row, writeResult fs row)

lemma csvRows_write (fs : FileState) (row : ResultRow) :
    csvRows (writeResult fs row) = csvRows fs ++ [row] := by
  cases fs <;> rfl

lemma foldl_writeResult (h : List String) (acc rs : List ResultRow) :
    List.foldl writeResult (some ⟨h, acc⟩) rs = some ⟨h, acc ++ rs⟩ := by
  induction rs generalizing acc with
  | nil => simp
  | cons r rest ih =>
      show List.foldl writeResult (writeResult (some ⟨h, acc⟩) r) rest = _
      rw [writeResult, ih]
      simp

/-- C5: writing a result appends.  When the assessment CSV does not
exist it is created with the header and the single data row; when it
exists, exactly the one new data row is appended and the header and
all previously written rows are unchanged; iterating from an absent
file leaves, after writing `rs`, the header followed by exactly the
rows `rs` in order. -/
theorem append_semantics (row : ResultRow) (f : CsvFile) (rs : List ResultRow) :
    writeResult none row = some ⟨csvHeader, [row]⟩ ∧
    writeResult (some f) row = some ⟨f.header, f.rows ++ [row]⟩ ∧
    List.foldl writeResult none rs = if rs = [] then none else some ⟨csvHeader, rs⟩ := by
  refine ⟨rfl, rfl, ?_⟩
  cases rs with
  | nil => rfl
  | cons r rest =>
      rw [if_neg (by simp)]
      show List.foldl writeResult (writeResult none r) rest = _
      rw [writeResult, foldl_writeResult]
      simp

/-- Sample result row used to instantiate the CSV theorems. -/
def sampleRow : ResultRow := ⟨"p", "DLT", "linear", "stan-map", none, 1, 2, 3, 4⟩

/-- Concrete witness for `append_semantics`: writing to an absent file
creates header plus one row. -/
theorem append_semantics_witness :
    writeResult none sampleRow = some ⟨csvHeader, [sampleRow]⟩ :=
  (append_semantics sampleRow ⟨csvHeader, []⟩ []).1

/-- C4: every successful call of `trigger_prediction` appends exactly
one row to the assessment CSV, and that row holds the project name,
the model name `DLT`, the best configuration's trend, estimator and
penalty, and the four metrics MAE, MAPE, RMSE and MSE of the best
model's predictions against the test data, each rounded to two decimal
places. -/
theorem result_row_recorded {ε : Type} (env : Env ε) (project : String)
    (fs : FileState) (row : ResultRow) (fs2 : FileState)
    (h : trigger_prediction env project fs = (Except.ok row, fs2)) :
    csvRows fs2 = csvRows fs ++ [row] ∧
    ∃ raw q cfg predicted,
      env.readCsv = Except.ok raw ∧
      hypertuneE env.fitPredictMAE = Except.ok (some (q, cfg)) ∧
      env.finalPredict cfg = Except.ok predicted ∧
      row = mkResultRow project cfg predicted (y_test_of raw) ∧
      row.Project = project ∧ row.Model = "DLT" ∧
      row.Trend = cfg.trend ∧ row.Estimator = cfg.estimator ∧
      row.Penalty = cfg.penalty ∧
      row.MAE = round2 (MAE predicted (y_test_of raw)) ∧
      row.MAPE = round2 (MAPE predicted (y_test_of raw)) ∧
      row.RMSE = round2R (RMSE predicted (y_test_of raw)) ∧
      row.MSE = round2 (MSE predicted (y_test_of raw)) := by
  cases hr : env.readCsv with
  | error e =>
      simp only [trigger_prediction, hr] at h
      exact absurd (congrArg Prod.fst h) (by simp)
  | ok raw =>
      cases hh : hypertuneE env.fitPredictMAE with
      | error e =>
          simp only [trigger_prediction, hr, hh] at h
          exact absurd (congrArg Prod.fst h) (by simp)
      | ok ob =>
          cases ob with
          | none =>
              simp only [trigger_prediction, hr, hh] at h
              exact absurd (congrArg Prod.fst h) (by simp)
          | some p =>
              obtain ⟨q, cfg⟩ := p
              cases hp : env.finalPredict cfg with
              | error e =>
                  simp only [trigger_prediction, hr, hh, hp] at h
                  exact absurd (congrArg Prod.fst h) (by simp)
              | ok predicted =>
                  simp only [trigger_prediction, hr, hh, hp] at h
                  have h1 : Except.ok (ε := PyErr ε)
                      (mkResultRow project cfg predicted (y_test_of raw)) =
                      Except.ok row := congrArg Prod.fst h
                  have h2 : writeResult fs
                      (mkResultRow project cfg predicted (y_test_of raw)) = fs2 :=
                    congrArg Prod.snd h
                  injection h1 with h1
                  subst h1
                  refine ⟨by rw [← h2, csvRows_write],
                    raw, q, cfg, predicted, rfl, rfl, hp, rfl,
                    rfl, rfl, rfl, rfl, rfl, rfl, rfl, rfl, rfl⟩

/-- Environment used to instantiate the success path of
`trigger_prediction` concretely: three clean rows, every grid
combination scoring MAE 1, final prediction `[4]`. -/
def envW : Env Unit where
  readCsv := Except.ok
    [⟨some 0, Cell.num 1, []⟩, ⟨some 1, Cell.num 1, []⟩, ⟨some 2, Cell.num 1, []⟩]
  fitPredictMAE := fun _ => Except.ok (MAEVal.val 1)
  finalPredict := fun _ => Except.ok [4]

/-- The raw rows of `envW`. -/
def rawsW : List RawRow :=
  [⟨some 0, Cell.num 1, []⟩, ⟨some 1, Cell.num 1, []⟩, ⟨some 2, Cell.num 1, []⟩]

/-- The result row produced by `trigger_prediction` on `envW`. -/
noncomputable def rowW : ResultRow :=
  mkResultRow "p" ⟨"linear", "stan-map", none⟩ [4] (y_test_of rawsW)

/-- Concrete witness for `result_row_recorded`: on `envW` the run
succeeds and the file goes from absent to exactly one appended row. -/
theorem result_row_recorded_witness :
    csvRows (some ⟨csvHeader, [rowW]⟩) = csvRows none ++ [rowW] :=
  (result_row_recorded envW "p" none rowW (some ⟨csvHeader, [rowW]⟩) rfl).1

/-- C7: `trigger_prediction` has no failure recovery.  An exception
from reading the input CSV, from fitting/evaluating any combination
during the grid search, or from the final prediction propagates
unchanged to the caller, and whenever the call ends in an exception
the assessment CSV state is exactly the state before the call (no
partial row is written). -/
theorem no_failure_recovery {ε : Type} (env : Env ε) (project : String) (fs : FileState) :
    (∀ e : ε, env.readCsv = Except.error e →
        trigger_prediction env project fs = (Except.error (PyErr.ext e), fs)) ∧
    (∀ (e : ε) (raw : List RawRow), env.readCsv = Except.ok raw →
        hypertuneE env.fitPredictMAE = Except.error e →
        trigger_prediction env project fs = (Except.error (PyErr.ext e), fs)) ∧
    (∀ (e : ε) (raw : List RawRow) (q : ℚ) (cfg : Config),
        env.readCsv = Except.ok raw →
        hypertuneE env.fitPredictMAE = Except.ok (some (q, cfg)) →
        env.finalPredict cfg = Except.error e →
        trigger_prediction env project fs = (Except.error (PyErr.ext e), fs)) ∧
    (∀ (e : PyErr ε) (fs2 : FileState),
        trigger_prediction env project fs = (Except.error e, fs2) → fs2 = fs) := by
  refine ⟨?_, ?_, ?_, ?_⟩
  · intro e he
    unfold trigger_prediction
    rw [he]
  · intro e raw hr hh
    unfold trigger_prediction
    rw [hr, hh]
  · intro e raw q cfg hr hh hp
    simp only [trigger_prediction, hr, hh, hp]
  · intro e fs2 h
    cases hr : env.readCsv with
    | error e2 =>
        simp only [trigger_prediction, hr] at h
        exact (congrArg Prod.snd h).symm
    | ok raw =>
        cases hh : hypertuneE env.fitPredictMAE with
        | error e2 =>
            simp only [trigger_prediction, hr, hh] at h
            exact (congrArg Prod.snd h).symm
        | ok ob =>
            cases ob with
            | none =>
                simp only [trigger_prediction, hr, hh] at h
                exact (congrArg Prod.snd h).symm
            | some p =>
                obtain ⟨q, cfg⟩ := p
                cases hp : env.finalPredict cfg with
                | error e2 =>
                    simp only [trigger_prediction, hr, hh, hp] at h
                    exact (congrArg Prod.snd h).symm
                | ok predicted =>
                    simp only [trigger_prediction, hr, hh, hp] at h
                    exact absurd (congrArg Prod.fst h) (by simp)

/-- Environment whose CSV read raises. -/
def envErr : Env Unit where
  readCsv := Except.error ()
  fitPredictMAE := fun _ => Except.ok MAEVal.nan
  finalPredict := fun _ => Except.ok []

/-- Concrete witness for `no_failure_recovery`: a read error propagates
and leaves the (absent) assessment CSV untouched. -/
theorem no_failure_recovery_witness :
    trigger_prediction envErr "p" none = (Except.error (PyErr.ext ()), none) :=
  (no_failure_recovery envErr "p" none).1 () rfl

lemma hyperGo_some_ne_none (f : Config → MAEVal) :
    ∀ (l : List Config) (p : ℚ × Config), hyperGo f l (some p) ≠ none := by
  intro l
  induction l with
  | nil => intro p h; cases h
  | cons c rest ih =>
      intro p h
      obtain ⟨bq, bc⟩ := p
      obtain ⟨p2, hp2, _⟩ := step_mono (f c) bq bc c
      rw [hyperGo, hp2] at h
      exact ih p2 h

lemma hyperGo_eq_none (f : Config → MAEVal) :
    ∀ (l : List Config) (b : Option (ℚ × Config)), hyperGo f l b = none →
      ∀ c ∈ l, ∀ q : ℚ, f c ≠ MAEVal.val q := by
  intro l
  induction l with
  | nil =>
      intro b _ c hc
      cases hc
  | cons c0 rest ih =>
      intro b h c hc q hq
      rcases List.mem_cons.mp hc with rfl | hmem
      · obtain ⟨p, hp, _⟩ := step_val_le q b c
        rw [hyperGo, hq, hp] at h
        exact hyperGo_some_ne_none f rest p h
      · exact ih (step (f c0) b c0) h c hmem q hq

/-- C9: `hypertune_dlt_model` returns a best model and configuration
exactly when at least one grid combination produces a comparable MAE,
i.e. a finite non-NaN value `q` with `q < inf`; and when every
combination fails that test (`None` is returned), the subsequent
`best_model.predict` in `trigger_prediction` raises, so the call ends
with the `NoneType` attribute error and an unchanged CSV state. -/
theorem hypertune_none_iff {ε : Type} (f : Config → MAEVal) (env : Env ε)
    (project : String) (fs : FileState) :
    ((hypertune_dlt_model f).isSome = true ↔
      ∃ c ∈ gridCombos, ∃ q : ℚ, f c = MAEVal.val q) ∧
    (∀ raw : List RawRow, env.readCsv = Except.ok raw →
      env.fitPredictMAE = (fun c => Except.ok (f c)) →
      hypertune_dlt_model f = none →
      trigger_prediction env project fs = (Except.error PyErr.noneType, fs)) := by
  constructor
  · constructor
    · intro h
      rcases Option.isSome_iff_exists.mp h with ⟨p, hp⟩
      obtain ⟨q, c⟩ := p
      rcases hyperGo_eq_some f gridCombos none q c hp with ⟨hb, _⟩ | ⟨l1, l2, hsplit, hfc, _, _, _⟩
      · cases hb
      · refine ⟨c, ?_, q, hfc⟩
        rw [hsplit]
        exact List.mem_append_right _ (List.mem_cons_self _ _)
    · rintro ⟨c, hc, q, hq⟩
      cases hx : hypertune_dlt_model f with
      | some p => rfl
      | none => exact absurd hq (hyperGo_eq_none f gridCombos none hx c hc q)
  · intro raw hr hfit hnone
    have hE : hypertuneE env.fitPredictMAE = Except.ok none := by
      rw [hfit, hypertuneE_pure, hnone]
    unfold trigger_prediction
    rw [hr, hE]

/-- Evaluation function in which every combination has NaN MAE. -/
def nanMAE : Config → MAEVal := fun _ => MAEVal.nan

/-- Environment in which every fit yields NaN MAE. -/
def envNaN : Env Unit where
  readCsv := Except.ok []
  fitPredictMAE := fun c => Except.ok (nanMAE c)
  finalPredict := fun _ => Except.ok []

/-- Concrete witness for `hypertune_none_iff`: with all-NaN MAEs the
search returns `None` and the pipeline ends with the `NoneType`
error, leaving the file state unchanged. -/
theorem hypertune_none_iff_witness :
    trigger_prediction envNaN "p" none = (Except.error PyErr.noneType, none) :=
  (hypertune_none_iff nanMAE envNaN "p" none).2 [] rfl rfl rfl

/-- One invocation of `trigger_prediction` recorded by the driver loop
`bayesian_orbit` (lines 150-189): which data directory and file the
input path points at, the project name passed, and the periodicity and
seasonality arguments. -/
structure Call where
  dataDir : String
  file : String
  project : String
  periodicity : String
  seasonality : Option ℕ
deriving DecidableEq

/-- Line 134: the output directory of one `trigger_prediction` call,
`DATA_PATH/ORBIT_ML/DLT_Result/<periodicity>` (path components after
`DATA_PATH`). -/
def DLT_result_dir (periodicity : String) : List String :=
  ["ORBIT_ML", "DLT_Result", periodicity]

/-- The three `trigger_prediction` invocations of one loop iteration
(lines 166-189), in program order: biweekly with seasonality 26,
monthly with seasonality 12, complete with seasonality `None`; the
project name is the biweekly file name without its last four
characters (line 162). -/
def projectCalls (bf mf cf : String) : List Call :=
  [⟨"biweekly_data_1", bf, bf.dropRight 4, "biweekly", some 26⟩,
   ⟨"monthly_data_1", mf, bf.dropRight 4, "monthly", some 12⟩,
   ⟨"complete_data_1", cf, bf.dropRight 4, "complete", none⟩]

/-- Python's `l[i]` on the biweekly listing, whose indices always come
from `range(len(biweekly_files))` and are therefore in bounds; the
default is never exercised there. -/
def idx (l : List String) (i : ℕ) : String := (getElem? l i).getD ""

/-- The loop body of `bayesian_orbit` over the remaining indices of
`range(len(biweekly_files))`: skip `.DS_Store` entries of the biweekly
listing, then read `monthly_files[i]` and `complete_files[i]` (which
raises an out-of-bounds `IndexError`, modelled as `none`, when either
listing is too short) and record the three calls. -/
def orbitGo (b m c : List String) : List ℕ → Option (List Call)
  | [] => some []
  | i :: rest =>
      if idx b i = ".DS_Store" then orbitGo b m c rest
      else
        match getElem? m i, getElem? c i with
        | some mf, some cf =>
            (orbitGo b m c rest).map fun t => projectCalls (idx b i) mf cf ++ t
        | _, _ => none

/-- `bayesian_orbit` (lines 150-189): iterate over the indices of the
biweekly listing; the result is the ordered trace of
`trigger_prediction` invocations, or `none` when an index error is
raised. -/
def bayesian_orbit (b m c : List String) : Option (List Call) :=
  orbitGo b m c (List.range b.length)

/-- Closed form of the successful trace. -/
def orbitSpec (b m c : List String) : List Call :=
  (List.range b.length).flatMap fun i =>
    if idx b i = ".DS_Store" then []
    else projectCalls (idx b i) (idx m i) (idx c i)

lemma orbitGo_eq_some (b m c : List String) :
    ∀ (is : List ℕ) (tr : List Call), orbitGo b m c is = some tr →
      tr = is.flatMap fun i =>
        if idx b i = ".DS_Store" then []
        else projectCalls (idx b i) (idx m i) (idx c i) := by
  intro is
  induction is with
  | nil =>
      intro tr h
      injection h with h
      rw [← h]
      rfl
  | cons i rest ih =>
      intro tr h
      by_cases hDS : idx b i = ".DS_Store"
      · rw [orbitGo, if_pos hDS] at h
        rw [List.flatMap_cons, if_pos hDS, List.nil_append]
        exact ih tr h
      · rw [orbitGo, if_neg hDS] at h
        cases hm : getElem? m i with
        | none => rw [hm] at h; cases getElem? c i <;> cases h
        | some mf =>
            cases hc : getElem? c i with
            | none => rw [hm, hc] at h; cases h
            | some cf =>
                rw [hm, hc] at h
                cases ht : orbitGo b m c rest with
                | none => rw [ht] at h; cases h
                | some t =>
                    rw [ht] at h
                    injection h with h
                    rw [List.flatMap_cons, if_neg hDS, ← h, ih t ht]
                    have hm2 : idx m i = mf := by
                      unfold idx
                      rw [hm]
                      rfl
                    have hc2 : idx c i = cf := by
                      unfold idx
                      rw [hc]
                      rfl
                    rw [hm2, hc2]

lemma orbitGo_isSome_iff (b m c : List String) :
    ∀ is : List ℕ, (orbitGo b m c is).isSome = true ↔
      ∀ i ∈ is, idx b i ≠ ".DS_Store" → i < m.length ∧ i < c.length := by
  intro is
  induction is with
  | nil => simp [orbitGo]
  | cons i rest ih =>
      by_cases hDS : idx b i = ".DS_Store"
      · have he : orbitGo b m c (i :: rest) = orbitGo b m c rest := by
          rw [orbitGo, if_pos hDS]
        rw [he, ih]
        constructor
        · intro h j hj hne
          rcases List.mem_cons.mp hj with rfl | hmem
          · exact absurd hDS hne
          · exact h j hmem hne
        · intro h j hj hne
          exact h j (List.mem_cons_of_mem i hj) hne
      · cases hm : getElem? m i with
        | none =>
            have he : orbitGo b m c (i :: rest) = none := by
              rw [orbitGo, if_neg hDS, hm]
            have hlen : m.length ≤ i := List.getElem?_eq_none_iff.mp hm
            rw [he]
            constructor
            · intro h
              cases h
            · intro h
              have := (h i (List.mem_cons_self i rest) hDS).1
              omega
        | some mf =>
            cases hc : getElem? c i with
            | none =>
                have he : orbitGo b m c (i :: rest) = none := by
                  rw [orbitGo, if_neg hDS, hm, hc]
                have hlen : c.length ≤ i := List.getElem?_eq_none_iff.mp hc
                rw [he]
                constructor
                · intro h
                  cases h
                · intro h
                  have := (h i (List.mem_cons_self i rest) hDS).2
                  omega
            | some cf =>
                have hmlt : i < m.length := by
                  by_contra hx
                  rw [List.getElem?_eq_none_iff.mpr (by omega)] at hm
                  cases hm
                have hclt : i < c.length := by
                  by_contra hx
                  rw [List.getElem?_eq_none_iff.mpr (by omega)] at hc
                  cases hc
                have he : orbitGo b m c (i :: rest) =
                    Option.map (fun t => projectCalls (idx b i) mf cf ++ t)
                      (orbitGo b m c rest) := by
                  rw [orbitGo, if_neg hDS, hm, hc]
                have hmap : (Option.map (fun t => projectCalls (idx b i) mf cf ++ t)
                    (orbitGo b m c rest)).isSome = (orbitGo b m c rest).isSome := by
                  cases orbitGo b m c rest <;> rfl
                rw [he, hmap, ih]
                constructor
                · intro h j hj hne
                  rcases List.mem_cons.mp hj with rfl | hmem
                  · exact ⟨hmlt, hclt⟩
                  · exact h j hmem hne
                · intro h j hj hne
                  exact h j (List.mem_cons_of_mem i hj) hne

lemma orbitSpec_length (b m c : List String) (is : List ℕ) :
    (is.flatMap fun i =>
        if idx b i = ".DS_Store" then []
        else projectCalls (idx b i) (idx m i) (idx c i)).length =
      3 * (is.filter fun i => decide (¬ idx b i = ".DS_Store")).length := by
  induction is with
  | nil => rfl
  | cons i rest ih =>
      rw [List.flatMap_cons, List.length_append, ih, List.filter_cons]
      by_cases hDS : idx b i = ".DS_Store"
      · have hd : (decide (¬ idx b i = ".DS_Store")) = false := by
          simp [hDS]
        rw [if_pos hDS, hd, if_neg Bool.false_ne_true, List.length_nil]
        omega
      · have hd : (decide (¬ idx b i = ".DS_Store")) = true := by
          simp [hDS]
        rw [if_neg hDS, hd, if_pos rfl, List.length_cons]
        have h3 : (projectCalls (idx b i) (idx m i) (idx c i)).length = 3 := rfl
        rw [h3]
        omega

/-- C6: in a successful run of `bayesian_orbit`, the recorded trace is
exactly, for each index of the biweekly listing whose entry is not
`.DS_Store`, the three `trigger_prediction` invocations in program
order — biweekly with seasonality 26, then monthly with seasonality
12, then complete with seasonality `None` — so each processed project
file yields exactly three invocations (the trace length is three times
the number of non-`.DS_Store` biweekly entries), each of the three
writing under its own periodicity-named output directory. -/
theorem orbit_three_calls (b m c : List String) (tr : List Call)
    (h : bayesian_orbit b m c = some tr) :
    tr = orbitSpec b m c ∧
    tr.length = 3 * ((List.range b.length).filter fun i =>
      decide (¬ idx b i = ".DS_Store")).length ∧
    (∀ i, i < b.length → idx b i ≠ ".DS_Store" →
      (⟨"biweekly_data_1", idx b i, (idx b i).dropRight 4,
          "biweekly", some 26⟩ : Call) ∈ tr ∧
      (⟨"monthly_data_1", idx m i, (idx b i).dropRight 4,
          "monthly", some 12⟩ : Call) ∈ tr ∧
      (⟨"complete_data_1", idx c i, (idx b i).dropRight 4,
          "complete", none⟩ : Call) ∈ tr) ∧
    DLT_result_dir "biweekly" ≠ DLT_result_dir "monthly" ∧
    DLT_result_dir "biweekly" ≠ DLT_result_dir "complete" ∧
    DLT_result_dir "monthly" ≠ DLT_result_dir "complete" := by
  have hspec : tr = orbitSpec b m c := orbitGo_eq_some b m c (List.range b.length) tr h
  refine ⟨hspec, by rw [hspec]; exact orbitSpec_length b m c (List.range b.length),
    ?_, by decide, by decide, by decide⟩
  intro i hi hne
  have hseg : (if idx b i = ".DS_Store" then []
      else projectCalls (idx b i) (idx m i) (idx c i)) =
      projectCalls (idx b i) (idx m i) (idx c i) := if_neg hne
  have hmem : ∀ x ∈ projectCalls (idx b i) (idx m i) (idx c i), x ∈ tr := by
    intro x hx
    rw [hspec]
    refine List.mem_flatMap.mpr ⟨i, List.mem_range.mpr hi, ?_⟩
    rw [hseg]
    exact hx
  refine ⟨hmem _ ?_, hmem _ ?_, hmem _ ?_⟩
  · exact List.mem_cons_self _ _
  · exact List.mem_cons_of_mem _ (List.mem_cons_self _ _)
  · exact List.mem_cons_of_mem _ (List.mem_cons_of_mem _ (List.mem_cons_self _ _))

/-- Concrete witness for `orbit_three_calls`: one project file in each
listing produces exactly the three-call trace. -/
theorem orbit_three_calls_witness :
    projectCalls "a.csv" "b.csv" "c.csv" = orbitSpec ["a.csv"] ["b.csv"] ["c.csv"] :=
  (orbit_three_calls ["a.csv"] ["b.csv"] ["c.csv"]
    (projectCalls "a.csv" "b.csv" "c.csv") (by decide)).1

/-- C10 counterexample: the original claim says `bayesian_orbit` runs
without an out-of-bounds index error only when the monthly and
complete listings are at least as long as the biweekly listing.  That
is false: when the extra biweekly entries are `.DS_Store`, the skip
happens before the indexed accesses, so the run below succeeds even
though the monthly and complete listings are strictly shorter than
the biweekly one. -/
theorem orbit_length_counterexample :
    (bayesian_orbit ["a.csv", ".DS_Store"] ["a.csv"] ["a.csv"]).isSome = true ∧
    ¬ ((["a.csv", ".DS_Store"] : List String).length ≤
        (["a.csv"] : List String).length) := by
  constructor
  · decide
  · decide

/-- C10 (amended): `bayesian_orbit` pairs the three listings purely by
biweekly listing index, accessing `monthly_files[i]` and
`complete_files[i]` for every biweekly index `i` whose entry is not
`.DS_Store`; it runs without an out-of-bounds index error exactly when
the monthly and complete listings have an entry at every such index
(in particular whenever both are at least as long as the biweekly
listing), and the `.DS_Store` skip tests only the biweekly entry,
never the monthly or complete ones. -/
theorem orbit_success_iff (b m c : List String) :
    (bayesian_orbit b m c).isSome = true ↔
      ∀ i, i < b.length → idx b i ≠ ".DS_Store" → i < m.length ∧ i < c.length := by
  rw [bayesian_orbit, orbitGo_isSome_iff]
  constructor
  · intro h i hi hne
    exact h i (List.mem_range.mpr hi) hne
  · intro h i hi hne
    exact h i (List.mem_range.mp hi) hne

/-- Concrete witness for `orbit_success_iff`: equally long listings
with no `.DS_Store` entry run without an index error. -/
theorem orbit_success_iff_witness :
    (bayesian_orbit ["a.csv"] ["b.csv"] ["c.csv"]).isSome = true :=
  (orbit_success_iff ["a.csv"] ["b.csv"] ["c.csv"]).mpr (by decide)

end OrbitDLT
